import Mathlib

/-!
Verification development for the hybrid topic-clustering pipeline of
`src/wia/analysis/topic_builder.py` (class `TopicBuilder`).

The pipeline stages (`run`): time-window grouping, reply-chain linking,
semantic merging, quality filtering, topic assembly.  Pure Python string
operations are modelled on the code-point level (Python strings index by
code point).  External collaborators that the source calls out to —
`hashlib.md5` (topic-id digest), `xml.etree`/`re` (quoted-message and link
extraction from raw payloads) and `sklearn` TF-IDF vectorization — are
modelled as injected function parameters, exactly as the specification
directs in its design notes ("treat the structured-then-regex-fallback
extraction ... as an injected parser dependency"); every piece of control
flow of `topic_builder.py` itself is embedded directly.
-/

namespace VX

/-! ## Python string primitives, modelled on code points -/

/-- Python `str.strip()`: remove leading and trailing whitespace.
Defined on the character list so that it evaluates by kernel reduction. -/
def pyStrip (s : String) : String :=
  ⟨((s.data.dropWhile Char.isWhitespace).reverse.dropWhile Char.isWhitespace).reverse⟩

/-- Python slicing `s[:n]`: the first `n` code points. -/
def takeChars (n : Nat) (s : String) : String :=
  ⟨s.data.take n⟩

/-- Python `len(s)`: number of code points. -/
def lenChars (s : String) : Nat :=
  s.data.length

/-- Python `sep.join(parts)`. -/
def joinSep (sep : String) : List String → String
  | [] => ""
  | [s] => s
  | s :: rest => s ++ sep ++ joinSep sep rest

/-- Helper for `splitWs`: accumulates the current word (reversed). -/
def splitWsAux : List Char → List Char → List String
  | [], acc => if acc.isEmpty then [] else [⟨acc.reverse⟩]
  | c :: cs, acc =>
      if c.isWhitespace then
        if acc.isEmpty then splitWsAux cs [] else String.mk acc.reverse :: splitWsAux cs []
      else splitWsAux cs (c :: acc)

/-- Python `str.split()` with no argument: split on whitespace runs,
dropping empty fragments. -/
def splitWs (s : String) : List String :=
  splitWsAux s.data []

/-! ## Data model (`src/wia/core/models.py`) -/

/-- Dataclass `ChatMessage`.  `xml_content` is the optional raw payload used
for reference extraction. -/
structure ChatMessage where
  msg_id : String
  timestamp : Int
  sender_id : String
  sender_name : String
  msg_type : String
  content : String
  xml_content : Option String
  source_file : String
deriving Repr, DecidableEq

/-- Link metadata extracted from a raw payload (`_extract_link_info_from_xml`
result dictionary). -/
structure LinkInfo where
  title : Option String
  description : Option String
  url : Option String
deriving Repr, DecidableEq

/-- One entry of the denormalized `messages` snapshot stored on a `Topic`. -/
structure MsgSnapshot where
  msg_id : String
  sender_name : String
  content : String
  timestamp : Int
  msg_type : String
  link : Option LinkInfo
deriving Repr, DecidableEq

/-- Dataclass `Topic` (the fields `TopicBuilder._create_topic_from_group`
fills). -/
structure Topic where
  topic_id : String
  message_ids : List String
  title : String
  participants : List String
  initiator : Option String
  start_time : Option Int
  end_time : Option Int
  conclusion : Option String
  message_count : Nat
  messages : List MsgSnapshot
deriving Repr, DecidableEq

/-- Constructor configuration of `TopicBuilder` with its default values. -/
structure Config where
  time_window : Nat := 300
  min_messages : Nat := 2
  semantic_threshold : ℚ := 3 / 10
  enable_reply_chain : Bool := true
  enable_semantic : Bool := true
  enable_adaptive_window : Bool := true

/-- Timestamp order used by every `sort(key=lambda m: m.timestamp)` in the
source. -/
def tsLE (a b : ChatMessage) : Prop := a.timestamp ≤ b.timestamp

instance : DecidableRel tsLE := fun a b => inferInstanceAs (Decidable (a.timestamp ≤ b.timestamp))

instance : IsTotal ChatMessage tsLE := ⟨fun a b => Int.le_total a.timestamp b.timestamp⟩

instance : IsTrans ChatMessage tsLE := ⟨fun _ _ _ h1 h2 => le_trans h1 h2⟩

/-- Python `sorted(msgs, key=lambda m: m.timestamp)` / `list.sort(key=...)`:
a stable sort by timestamp. -/
def sortByTs (l : List ChatMessage) : List ChatMessage :=
  l.insertionSort tsLE

/-! ## Stage 1: time-window grouping (`_group_by_time_window`,
`_get_adaptive_window`) -/

/-- `TopicBuilder._get_adaptive_window`.  Returns the window in seconds.
`int(x * 0.5)`, `int(x * 1.5)` and `int(x * 2)` on a natural `time_window`
are the truncated products `x / 2`, `3 * x / 2` and `2 * x`; the density is
computed exactly as `(len(group) / time_span) * 60` messages per minute. -/
def getAdaptiveWindow (cfg : Config) (current_group : List ChatMessage) : Nat :=
  if ¬ cfg.enable_adaptive_window ∨ current_group.length < 2 then
    cfg.time_window
  else
    match current_group with
    | [] => cfg.time_window
    | m0 :: _ =>
        let timeSpan : Int := (current_group.getLastD m0).timestamp - m0.timestamp
        let density : ℚ :=
          if timeSpan = 0 then (current_group.length : ℚ)
          else ((current_group.length : ℚ) / (timeSpan : ℚ)) * 60
        if density > 2 then cfg.time_window / 2
        else if density > 1 then cfg.time_window
        else if density > 1 / 2 then 3 * cfg.time_window / 2
        else 2 * cfg.time_window

/-- The loop body of `_group_by_time_window`: `current` is the group being
built (never empty), `prev` the message placed immediately before the
candidate. -/
def groupLoop (cfg : Config) : List ChatMessage → ChatMessage → List ChatMessage →
    List (List ChatMessage)
  | current, _, [] => [current]
  | current, prev, curr :: rest =>
      let window := getAdaptiveWindow cfg current
      let timeDiff := curr.timestamp - prev.timestamp
      if timeDiff ≤ (window : Int) then
        groupLoop cfg (current ++ [curr]) curr rest
      else
        current :: groupLoop cfg [curr] curr rest

/-- `TopicBuilder._group_by_time_window` on the already-sorted message
list. -/
def groupByTimeWindow (cfg : Config) : List ChatMessage → List (List ChatMessage)
  | [] => []
  | m :: rest => groupLoop cfg [m] m rest

/-! ## Stage 2: reply-chain linking (`_merge_by_reply_relation`,
`_extract_reply_relations`)

The extraction of a quoted message id from the raw XML payload
(`_extract_quoted_msg_id`, built on `xml.etree` with a regex fallback) is an
injected parameter `extractQuoted`, as the specification design notes direct
for this external parsing dependency. -/

/-- The dict `msg_to_group` (message id to group index); a later insertion
overwrites an earlier one, as in a Python dict. -/
def msgToGroup (groups : List (List ChatMessage)) : String → Option Nat :=
  groups.enum.foldl
    (fun acc p =>
      p.2.foldl (fun a m => fun s => if s = m.msg_id then some p.1 else a s) acc)
    (fun _ => none)

/-- The relations found inside one group: a relation
`(replying message id, quoted message id)` is recorded only when the
extracted quoted id is non-empty (Python truthiness) and present in that
same group's `msg_map`. -/
def groupRelations (extractQuoted : ChatMessage → Option String)
    (group : List ChatMessage) : List (String × String) :=
  group.filterMap (fun m =>
    match extractQuoted m with
    | some q =>
        if q ≠ "" ∧ q ∈ group.map (fun m2 => m2.msg_id) then some (m.msg_id, q) else none
    | none => none)

/-- `TopicBuilder._extract_reply_relations`: the concatenation of the
per-group relation lists. -/
def extractReplyRelations (extractQuoted : ChatMessage → Option String)
    (groups : List (List ChatMessage)) : List (String × String) :=
  (groups.map (groupRelations extractQuoted)).flatten

/-- The inner `find` of the union-find, with path halving
(`parent[x] = parent[parent[x]]; x = parent[x]`).  The loop is bounded by a
fuel argument (the callers pass the number of groups, which bounds every
chain in the parent forest); it returns the updated parent array and the
root. -/
def ufFind : Nat → Array Nat → Nat → Array Nat × Nat
  | 0, parent, x => (parent, x)
  | fuel + 1, parent, x =>
      let px := parent.getD x x
      if px = x then (parent, x)
      else
        let gpx := parent.getD px px
        ufFind fuel (parent.setD x gpx) gpx

/-- The inner `union`: `parent[find(x)] = find(y)` when the roots differ. -/
def ufUnion (fuel : Nat) (parent : Array Nat) (x y : Nat) : Array Nat :=
  let fx := ufFind fuel parent x
  let fy := ufFind fuel fx.1 y
  if fx.2 = fy.2 then fy.1 else fy.1.setD fx.2 fy.2

/-- Insertion into the `root_to_messages` dict: extend the entry of `root`
if present (its insertion position is kept), else append a new entry. -/
def addToBucket (buckets : List (Nat × List ChatMessage)) (root : Nat)
    (g : List ChatMessage) : List (Nat × List ChatMessage) :=
  match buckets with
  | [] => [(root, g)]
  | (r, ms) :: rest =>
      if r = root then (r, ms ++ g) :: rest
      else (r, ms) :: addToBucket rest root g

/-- The collection loop of `_merge_by_reply_relation`: for each group index,
look up its root (path compression updates the parent array) and extend the
root's bucket. -/
def collectBuckets (fuel : Nat) :
    List (Nat × List ChatMessage) → Array Nat → List (Nat × List ChatMessage) →
      List (Nat × List ChatMessage) × Array Nat
  | acc, parent, [] => (acc, parent)
  | acc, parent, (idx, g) :: rest =>
      let fr := ufFind fuel parent idx
      collectBuckets fuel (addToBucket acc fr.2 g) fr.1 rest

/-- `TopicBuilder._merge_by_reply_relation`.  When no relation is found the
input list is returned as is; otherwise groups are merged along a union-find
over group indices and each resulting group is re-sorted by timestamp. -/
def mergeByReplyRelation (extractQuoted : ChatMessage → Option String)
    (groups : List (List ChatMessage)) : List (List ChatMessage) :=
  let m2g := msgToGroup groups
  let relations := extractReplyRelations extractQuoted groups
  if relations = [] then groups
  else
    let n := groups.length
    let parent := relations.foldl
      (fun p rq =>
        match m2g rq.1, m2g rq.2 with
        | some ri, some qi => ufUnion n p ri qi
        | _, _ => p)
      (Array.range n)
    let buckets := (collectBuckets n [] parent groups.enum).1
    buckets.map (fun b => sortByTs b.2)

/-! ## Stage 3: semantic merging (`_merge_by_semantic_similarity`,
`_get_group_text`, `_compute_semantic_similarities`)

The TF-IDF vectorization plus cosine similarity over the non-empty
representative texts (`sklearn`) is an injected parameter `vectorize`; it
receives the list of valid texts and returns their pairwise similarity
indexed by position in that list, or `none` when the backend raises. -/

/-- `TopicBuilder._get_group_text`: contents of the first three messages,
skipping empty contents and the exact media placeholders, joined by a
space. -/
def getGroupText (group : List ChatMessage) : String :=
  joinSep " "
    ((group.take 3).filterMap (fun m =>
      if m.content ≠ "" ∧ m.content ∉ (["[图片]", "[语音]", "[视频]"] : List String) then
        some m.content
      else none))

/-- The indices of the texts whose stripped form is non-empty
(`valid_indices`). -/
def validIndices (texts : List String) : List Nat :=
  (texts.enum.filter (fun p => pyStrip p.2 ≠ "")).map (fun p => p.1)

/-- The texts at the valid indices (`valid_texts`). -/
def validTexts (texts : List String) : List String :=
  (validIndices texts).map (fun i => texts.getD i "")

/-- `TopicBuilder._compute_semantic_similarities` as a function from index
pairs to the similarity: the all-zero matrix when fewer than two texts are
valid or when the vectorization backend fails, otherwise the backend
similarities re-indexed through `valid_indices` with zeroes elsewhere. -/
def computeSemanticSimilarities (vectorize : List String → Option (Nat → Nat → ℚ))
    (texts : List String) : Nat → Nat → ℚ :=
  if (validIndices texts).length < 2 then fun _ _ => 0
  else
    match vectorize (validTexts texts) with
    | none => fun _ _ => 0
    | some sims => fun i j =>
        match (validIndices texts).findIdx? (fun a => a = i),
              (validIndices texts).findIdx? (fun a => a = j) with
        | some a, some b => sims a b
        | _, _ => 0

/-- The greedy merge loop of `_merge_by_semantic_similarity` over the
enumerated groups.  The outer iteration in index order with a `merged` skip
flag is the same as recursing on the not-yet-consumed tail: for the first
unconsumed index `i`, every later unconsumed `j` with
`similarities[i][j] >= threshold` is absorbed (concatenated, then the merged
group is re-sorted by timestamp), and the loop continues on the remainder.
The fuel argument (called with the list length) makes the recursion
structural; the remainder is a sublist of the tail, so the fuel never runs
out. -/
def greedyMergeLoop (sims : Nat → Nat → ℚ) (threshold : ℚ) :
    Nat → List (Nat × List ChatMessage) → List (List ChatMessage)
  | 0, _ => []
  | _ + 1, [] => []
  | fuel + 1, (i, g) :: rest =>
      let absorbed := rest.filter (fun p => decide (threshold ≤ sims i p.1))
      let remaining := rest.filter (fun p => ! decide (threshold ≤ sims i p.1))
      sortByTs (g ++ (absorbed.map (fun p => p.2)).flatten) ::
        greedyMergeLoop sims threshold fuel remaining

/-- `TopicBuilder._merge_by_semantic_similarity`. -/
def mergeBySemanticSimilarity (vectorize : List String → Option (Nat → Nat → ℚ))
    (cfg : Config) (groups : List (List ChatMessage)) : List (List ChatMessage) :=
  if groups.length ≤ 1 then groups
  else
    let texts := groups.map getGroupText
    let sims := computeSemanticSimilarities vectorize texts
    greedyMergeLoop sims cfg.semantic_threshold groups.length groups.enum

/-! ## Stage 4 and topic assembly (`run`, `_create_topic_from_group`,
`_generate_topic_id`, `_generate_title`, `_generate_conclusion`) -/

/-- The quality filter of `TopicBuilder.run`:
`[g for g in groups if len(g) >= self.min_messages]`. -/
def qualityFilter (cfg : Config) (groups : List (List ChatMessage)) :
    List (List ChatMessage) :=
  groups.filter (fun g => cfg.min_messages ≤ g.length)

/-- `TopicBuilder._generate_topic_id`: the digest (`hashlib.md5` hexdigest in
the source, injected here) of `f"{timestamp}_{sender_id}_{msg_id}"` of a
message, truncated to its first 12 characters. -/
def generateTopicId (digest : String → String) (m : ChatMessage) : String :=
  takeChars 12 (digest (toString m.timestamp ++ "_" ++ m.sender_id ++ "_" ++ m.msg_id))

/-- `TopicBuilder._generate_title`: first message whose stripped content is
non-empty and not a media placeholder; newline replacement plus
`" ".join(title.split())` collapses whitespace (splitting treats the newline
as whitespace already); truncated to 50 characters with an ellipsis. -/
def generateTitle (messages : List ChatMessage) : String :=
  match messages.find? (fun m =>
      decide (pyStrip m.content ≠ "" ∧
        pyStrip m.content ∉ (["[图片]", "[语音]", "[视频]", "[表情]"] : List String))) with
  | none => "未知话题"
  | some m =>
      let title := joinSep " " (splitWs (pyStrip m.content))
      if lenChars title > 50 then takeChars 50 title ++ "..." else title

/-- `TopicBuilder._generate_conclusion`: `None` for at most one message;
otherwise the messages among the first five whose content is non-empty and
whose stripped content is not a media placeholder, each truncated to 100
characters and stripped, joined with `" | "`, capped at 300 characters with
an ellipsis; `None` when no such message exists among the first five. -/
def generateConclusion (messages : List ChatMessage) : Option String :=
  if messages.length ≤ 1 then none
  else
    let contentMessages := (messages.take 5).filter (fun m =>
      decide (m.content ≠ "" ∧
        pyStrip m.content ∉ (["[图片]", "[语音]", "[视频]"] : List String)))
    if contentMessages.isEmpty then none
    else
      let conclusion := joinSep " | "
        (contentMessages.map (fun m => pyStrip (takeChars 100 m.content)))
      if lenChars conclusion > 300 then some (takeChars 300 conclusion ++ "...")
      else some conclusion

/-- `TopicBuilder._create_topic_from_group`.  The link extraction from the
raw payload (`_extract_link_info_from_xml`) is the injected `extractLink`
parameter.  The Python code indexes `messages[0]`; the empty group, which
never reaches this function, yields `none` here. -/
def createTopicFromGroup (digest : String → String)
    (extractLink : Option String → Option LinkInfo)
    (messages : List ChatMessage) : Option Topic :=
  match messages with
  | [] => none
  | first :: _ =>
      let messagesData := messages.map (fun m =>
        let xmlToParse : Option String :=
          match m.xml_content with
          | some x =>
              if x = "" then
                if m.content.startsWith "<" then some m.content else none
              else some x
          | none => if m.content.startsWith "<" then some m.content else none
        { msg_id := m.msg_id
          sender_name := m.sender_name
          content := m.content
          timestamp := m.timestamp
          msg_type := m.msg_type
          link := extractLink xmlToParse })
      some
        { topic_id := generateTopicId digest first
          message_ids := messages.map (fun m => m.msg_id)
          title := generateTitle messages
          participants := (messages.map (fun m => m.sender_name)).dedup
          initiator := some first.sender_name
          start_time := some first.timestamp
          end_time := some (messages.getLastD first).timestamp
          conclusion := generateConclusion messages
          message_count := messages.length
          messages := messagesData }

/-- The group list of `TopicBuilder.run` immediately before the quality
filter: sort, time-window grouping, then the toggleable reply-chain and
semantic stages. -/
def pipelineGroups (extractQuoted : ChatMessage → Option String)
    (vectorize : List String → Option (Nat → Nat → ℚ))
    (cfg : Config) (messages : List ChatMessage) : List (List ChatMessage) :=
  let groups1 := groupByTimeWindow cfg (sortByTs messages)
  let groups2 := if cfg.enable_reply_chain then mergeByReplyRelation extractQuoted groups1
    else groups1
  if cfg.enable_semantic then mergeBySemanticSimilarity vectorize cfg groups2 else groups2

/-- `TopicBuilder.run`: the full pipeline, returning the topic list. -/
def runPipeline (digest : String → String)
    (extractQuoted : ChatMessage → Option String)
    (extractLink : Option String → Option LinkInfo)
    (vectorize : List String → Option (Nat → Nat → ℚ))
    (cfg : Config) (messages : List ChatMessage) : List Topic :=
  if sortByTs messages = [] then []
  else
    (qualityFilter cfg (pipelineGroups extractQuoted vectorize cfg messages)).filterMap
      (createTopicFromGroup digest extractLink)

/-! ## Concrete inputs used by the per-claim evaluations -/

/-- The default `TopicBuilder()` configuration. -/
def cfgDefault : Config := {}

/-- Message A of spec Scenario C: its id is the svrid-based id a quoting
message refers to. -/
def msgA : ChatMessage :=
  { msg_id := "svrid_100", timestamp := 0, sender_id := "u1", sender_name := "Alice"
    msg_type := "1", content := "hello world", xml_content := none, source_file := "f" }

/-- Message D of spec Scenario C: 1000 seconds later, its raw payload quotes
message A (`<refermsg><svrid>100</svrid></refermsg>`). -/
def msgD : ChatMessage :=
  { msg_id := "m_D", timestamp := 1000, sender_id := "u2", sender_name := "Bob"
    msg_type := "49", content := "re hello",
    xml_content := some "<refermsg><svrid>100</svrid></refermsg>", source_file := "f" }

/-- The concrete quoted-id extractor for the Scenario C payloads: on the
payload of `msgD` the structured svrid extraction of
`_extract_quoted_msg_id` yields `svrid_100`. -/
def extractQuotedScenC : ChatMessage → Option String := fun m =>
  match m.xml_content with
  | some x => if x = "<refermsg><svrid>100</svrid></refermsg>" then some "svrid_100" else none
  | none => none

/-- C1.  The spec demands that a quoted-message reference merges the two
time-disjoint groups of A and D.  The code cannot: `_extract_reply_relations`
checks the quoted id against the per-group `msg_map` only, so a reference
whose target sits in another group is dropped, no relation is recorded, and
the groups stay apart.  This theorem evaluates the embedded code at the
failing input: the extractor does find the reference from D to A, yet the
relation list is empty and the reply linker returns the two groups
unmerged. -/
theorem C1_cross_group_reply_not_merged :
    extractQuotedScenC msgD = some msgA.msg_id ∧
    groupByTimeWindow cfgDefault [msgA, msgD] = [[msgA], [msgD]] ∧
    extractReplyRelations extractQuotedScenC [[msgA], [msgD]] = [] ∧
    mergeByReplyRelation extractQuotedScenC (groupByTimeWindow cfgDefault [msgA, msgD]) =
      [[msgA], [msgD]] := by
  refine ⟨rfl, by decide, rfl, by decide⟩

/-- C5.  The quality filter keeps exactly the groups with at least
`min_messages` messages: survivors form a sublist of the input (no merging,
no reordering), every survivor is large enough, every large-enough group
survives, and every dropped group was too small. -/
theorem C5_quality_filter_exact (cfg : Config) (groups : List (List ChatMessage)) :
    (qualityFilter cfg groups).Sublist groups ∧
    (∀ g ∈ qualityFilter cfg groups, cfg.min_messages ≤ g.length) ∧
    (∀ g ∈ groups, cfg.min_messages ≤ g.length → g ∈ qualityFilter cfg groups) ∧
    (∀ g ∈ groups, g ∉ qualityFilter cfg groups → g.length < cfg.min_messages) := by
  refine ⟨List.filter_sublist groups, ?_, ?_, ?_⟩
  · intro g hg
    have := List.of_mem_filter hg
    simpa using this
  · intro g hg hlen
    exact List.mem_filter.mpr ⟨hg, by simpa using hlen⟩
  · intro g hg hnot
    by_contra hge
    exact hnot (List.mem_filter.mpr ⟨hg, by simpa using Nat.le_of_not_lt hge⟩)

/-- Short constructor for plain text messages used in concrete inputs. -/
def mkMsg (i : String) (t : Int) (s : String) (c : String) : ChatMessage :=
  { msg_id := i, timestamp := t, sender_id := s, sender_name := s
    msg_type := "1", content := c, xml_content := none, source_file := "f" }

/-! ## C3: the adaptive window formula -/

/-- The adaptive window exactly as claim C3 states it, as a rational: the
density bands apply to every current group whenever adaptive windowing is
enabled, density being message count over span minutes (the count itself
when the span is zero). -/
def adaptiveWindowClaimed (cfg : Config) (g : List ChatMessage) : ℚ :=
  if ¬ cfg.enable_adaptive_window then (cfg.time_window : ℚ)
  else
    match g with
    | [] => (cfg.time_window : ℚ)
    | m0 :: _ =>
        let spanMinutes : ℚ := (((g.getLastD m0).timestamp - m0.timestamp : Int) : ℚ) / 60
        let density : ℚ :=
          if spanMinutes = 0 then (g.length : ℚ) else (g.length : ℚ) / spanMinutes
        if density > 2 then (cfg.time_window : ℚ) * (1 / 2)
        else if density > 1 then (cfg.time_window : ℚ)
        else if density > 1 / 2 then (cfg.time_window : ℚ) * (3 / 2)
        else (cfg.time_window : ℚ) * 2

/-- A lone first message: the group every run starts with. -/
def msgSolo : ChatMessage := mkMsg "solo" 0 "u1" "hi"

/-- C3 counterexample.  For a current group holding a single message the
code returns the base window (300) unconditionally
(`len(current_group) < 2`), while the claimed formula gives density
= 1 (zero span) and hence `base_window * 1.5 = 450`. -/
theorem C3_counterexample_single_message_group :
    getAdaptiveWindow cfgDefault [msgSolo] = 300 ∧
    adaptiveWindowClaimed cfgDefault [msgSolo] = 450 ∧
    ((getAdaptiveWindow cfgDefault [msgSolo] : ℚ) ≠ adaptiveWindowClaimed cfgDefault [msgSolo]) := by
  refine ⟨by decide, ?_, ?_⟩
  · simp only [adaptiveWindowClaimed, cfgDefault, msgSolo, mkMsg, List.getLastD, List.length]
    norm_num
  · intro h
    rw [show getAdaptiveWindow cfgDefault [msgSolo] = 300 from by decide] at h
    rw [show adaptiveWindowClaimed cfgDefault [msgSolo] = 450 from ?_] at h
    · norm_num at h
    · simp only [adaptiveWindowClaimed, cfgDefault, msgSolo, mkMsg, List.getLastD, List.length]
      norm_num

/-- The adaptive window as amended: the window is the base window whenever
adaptive windowing is disabled or the current group has fewer than two
messages; otherwise the density bands of the claim apply, with the
half and one-and-a-half multiples truncated to whole seconds.  Density is
written here as count over span minutes, as the claim words it. -/
def adaptiveWindowAmended (cfg : Config) (g : List ChatMessage) : Nat :=
  if ¬ cfg.enable_adaptive_window ∨ g.length < 2 then cfg.time_window
  else
    match g with
    | [] => cfg.time_window
    | m0 :: _ =>
        let span : Int := (g.getLastD m0).timestamp - m0.timestamp
        let density : ℚ :=
          if span = 0 then (g.length : ℚ) else (g.length : ℚ) / ((span : ℚ) / 60)
        if density > 2 then cfg.time_window / 2
        else if density > 1 then cfg.time_window
        else if density > 1 / 2 then 3 * cfg.time_window / 2
        else 2 * cfg.time_window

/-- C3 as amended: for every configuration and every current group, the
window the code computes equals the amended formula (base window when
adaptive windowing is disabled or the group has fewer than two messages;
the density bands otherwise, density = count / span-minutes). -/
theorem C3_adaptive_window_amended (cfg : Config) (g : List ChatMessage) :
    getAdaptiveWindow cfg g = adaptiveWindowAmended cfg g := by
  unfold getAdaptiveWindow adaptiveWindowAmended
  split
  · rfl
  · cases g with
    | nil => rfl
    | cons m0 t =>
        by_cases hs : ((m0 :: t).getLastD m0).timestamp - m0.timestamp = 0
        · simp only [hs, if_true, eq_self_iff_true]
        · have hq : ((((m0 :: t).getLastD m0).timestamp - m0.timestamp : Int) : ℚ) ≠ 0 :=
            Int.cast_ne_zero.mpr hs
          have hdens :
              (((m0 :: t).length : ℚ) /
                  ((((m0 :: t).getLastD m0).timestamp - m0.timestamp : Int) : ℚ)) * 60 =
                ((m0 :: t).length : ℚ) /
                  (((((m0 :: t).getLastD m0).timestamp - m0.timestamp : Int) : ℚ) / 60) := by
            field_simp
          simp only [hs, if_false, hdens]

/-! ## C7: the conclusion synthesis -/

/-- Substantive content: non-empty, and not a media placeholder once
stripped (the filter of `_generate_conclusion`). -/
def substantiveMsg (m : ChatMessage) : Prop :=
  m.content ≠ "" ∧ pyStrip m.content ∉ (["[图片]", "[语音]", "[视频]"] : List String)

instance (m : ChatMessage) : Decidable (substantiveMsg m) := by
  unfold substantiveMsg; infer_instance

/-- The conclusion exactly as claim C7 states it: the first five substantive
messages of the whole group (not only of its first five messages), each
truncated to 100 characters, joined and capped at 300 characters. -/
def conclusionClaimed (messages : List ChatMessage) : Option String :=
  if messages.length ≤ 1 then none
  else
    match (messages.filter (fun m => decide (substantiveMsg m))).take 5 with
    | [] => none
    | ms =>
        let joined := joinSep " | " (ms.map (fun m => pyStrip (takeChars 100 m.content)))
        if lenChars joined > 300 then some (takeChars 300 joined ++ "...") else some joined

/-- Six messages: a media placeholder first, then five substantive ones. -/
def msgsC7 : List ChatMessage :=
  [mkMsg "1" 0 "u" "[图片]", mkMsg "2" 1 "u" "a2", mkMsg "3" 2 "u" "a3",
   mkMsg "4" 3 "u" "a4", mkMsg "5" 4 "u" "a5", mkMsg "6" 5 "u" "a6"]

/-- C7 counterexample.  The code filters substantive messages *among the
first five messages* (`messages[:5]` before the filter), producing
`a2 | a3 | a4 | a5`; the claimed rule (first five substantive messages)
would include `a6`. -/
theorem C7_counterexample_placeholder_in_first_five :
    generateConclusion msgsC7 = some "a2 | a3 | a4 | a5" ∧
    conclusionClaimed msgsC7 = some "a2 | a3 | a4 | a5 | a6" ∧
    generateConclusion msgsC7 ≠ conclusionClaimed msgsC7 := by
  refine ⟨by decide, by decide, by decide⟩

/-- The conclusion as amended: the substantive messages *among the first
five messages of the group*, each truncated to 100 characters and stripped,
joined with a separator and capped at 300 characters; `none` when the group
has fewer than two messages or no substantive content occurs among its
first five messages. -/
def conclusionAmended (messages : List ChatMessage) : Option String :=
  if messages.length ≤ 1 then none
  else
    match (messages.take 5).filter (fun m => decide (substantiveMsg m)) with
    | [] => none
    | ms =>
        let joined := joinSep " | " (ms.map (fun m => pyStrip (takeChars 100 m.content)))
        if lenChars joined > 300 then some (takeChars 300 joined ++ "...") else some joined

/-- C7 as amended: for every group, the conclusion the code produces equals
the amended rule. -/
theorem C7_conclusion_amended (messages : List ChatMessage) :
    generateConclusion messages = conclusionAmended messages := by
  unfold generateConclusion conclusionAmended substantiveMsg
  split
  · rfl
  · cases h : (messages.take 5).filter
        (fun m => decide (m.content ≠ "" ∧
          pyStrip m.content ∉ (["[图片]", "[语音]", "[视频]"] : List String))) with
    | nil => simp [h, List.isEmpty]
    | cons a tl => simp [h, List.isEmpty]

/-! ## C4: single-pass greedy semantic merge is not transitive -/

/-- Three one-message groups with distinct substantive texts. -/
def msgSemA : ChatMessage := mkMsg "a" 0 "u" "aa"

/-- Second semantic example message. -/
def msgSemB : ChatMessage := mkMsg "b" 10 "u" "bb"

/-- Third semantic example message. -/
def msgSemC : ChatMessage := mkMsg "c" 20 "u" "cc"

/-- The three-group input for the non-transitivity scenario. -/
def semGroups : List (List ChatMessage) := [[msgSemA], [msgSemB], [msgSemC]]

/-- A chain-similar but not transitively-similar similarity: groups 0-1 and
1-2 clear the threshold, 0-2 does not. -/
def simChain : Nat → Nat → ℚ := fun i j =>
  if (i = 0 ∧ j = 1) ∨ (i = 1 ∧ j = 0) then 2
  else if (i = 1 ∧ j = 2) ∨ (i = 2 ∧ j = 1) then 2
  else 0

/-- The vectorization backend producing `simChain`. -/
def vecChain : List String → Option (Nat → Nat → ℚ) := fun _ => some simChain

/-- A configuration with an integral semantic threshold (for kernel
evaluation); every other field keeps its default. -/
def cfgThr1 : Config := { semantic_threshold := 1 }

/-- The similarity matrix the semantic stage computes for `semGroups`. -/
def simsSemChain : Nat → Nat → ℚ :=
  computeSemanticSimilarities vecChain (semGroups.map getGroupText)

/-- C4.  The semantic merge is single-pass greedy and not transitive:
with similarity(0,1) and similarity(1,2) above the threshold but
similarity(0,2) below it, group 0 absorbs group 1, group 2 is left alone,
and the messages of groups 0 and 2 end up in different final groups. -/
theorem C4_semantic_merge_greedy_not_transitive :
    cfgThr1.semantic_threshold ≤ simsSemChain 0 1 ∧
    cfgThr1.semantic_threshold ≤ simsSemChain 1 2 ∧
    simsSemChain 0 2 < cfgThr1.semantic_threshold ∧
    mergeBySemanticSimilarity vecChain cfgThr1 semGroups = [[msgSemA, msgSemB], [msgSemC]] ∧
    ¬ ∃ g ∈ mergeBySemanticSimilarity vecChain cfgThr1 semGroups,
        msgSemA ∈ g ∧ msgSemC ∈ g := by
  refine ⟨by decide, by decide, by decide, by decide, by decide⟩

/-! ## Multiset preservation of the grouping stages (claim C2) -/

/-- Sorting by timestamp permutes the messages. -/
theorem sortByTs_perm (l : List ChatMessage) : (sortByTs l).Perm l :=
  List.perm_insertionSort tsLE l

/-- The grouping loop concatenates back to the current group followed by the
remaining input. -/
theorem groupLoop_flatten (cfg : Config) :
    ∀ (rest : List ChatMessage) (current : List ChatMessage) (prev : ChatMessage),
      (groupLoop cfg current prev rest).flatten = current ++ rest := by
  intro rest
  induction rest with
  | nil => intro c p; simp [groupLoop]
  | cons x xs ih =>
      intro c p
      unfold groupLoop
      dsimp only
      split
      · rw [ih (c ++ [x]) x, List.append_assoc]
        rfl
      · rw [List.flatten, ih [x] x]
        rfl

/-- The time-window grouper partitions the input exactly. -/
theorem groupByTimeWindow_flatten (cfg : Config) (l : List ChatMessage) :
    (groupByTimeWindow cfg l).flatten = l := by
  cases l with
  | nil => rfl
  | cons m rest => exact groupLoop_flatten cfg rest [m] m

/-- Sorting every group permutes the flattened messages. -/
theorem flatten_map_sortByTs_perm (bs : List (List ChatMessage)) :
    ((bs.map sortByTs).flatten).Perm bs.flatten := by
  induction bs with
  | nil => exact List.Perm.refl _
  | cons b rest ih =>
      simp only [List.map_cons, List.flatten_cons]
      exact (sortByTs_perm b).append ih

/-- Extending a bucket adds exactly the new messages to the flattened
bucket contents. -/
theorem addToBucket_flatten_perm (root : Nat) (g : List ChatMessage) :
    ∀ buckets : List (Nat × List ChatMessage),
      (((addToBucket buckets root g).map Prod.snd).flatten).Perm
        ((buckets.map Prod.snd).flatten ++ g) := by
  intro buckets
  induction buckets with
  | nil => simp [addToBucket]
  | cons b rest ih =>
      obtain ⟨r, ms⟩ := b
      unfold addToBucket
      split
      · simp only [List.map_cons, List.flatten_cons, List.append_assoc]
        exact (@List.perm_append_comm _ g _).append_left ms
      · simp only [List.map_cons, List.flatten_cons, List.append_assoc]
        exact ih.append_left ms

/-- The collection loop of the reply merge assigns every group to exactly
one bucket: the flattened bucket contents permute the flattened input. -/
theorem collectBuckets_flatten_perm (fuel : Nat) :
    ∀ (l : List (Nat × List ChatMessage)) (acc : List (Nat × List ChatMessage))
      (parent : Array Nat),
      (((collectBuckets fuel acc parent l).1.map Prod.snd).flatten).Perm
        ((acc.map Prod.snd).flatten ++ (l.map Prod.snd).flatten) := by
  intro l
  induction l with
  | nil => intro acc parent; simp [collectBuckets]
  | cons p rest ih =>
      intro acc parent
      obtain ⟨idx, g⟩ := p
      unfold collectBuckets
      refine (ih _ _).trans ?_
      simp only [List.map_cons, List.flatten_cons, ← List.append_assoc]
      exact (addToBucket_flatten_perm _ _ acc).append_right _

/-- Sorting the bucket contents is mapping the sort over the bucket
values. -/
theorem map_sort_snd (bs : List (Nat × List ChatMessage)) :
    bs.map (fun b => sortByTs b.2) = (bs.map Prod.snd).map sortByTs := by
  rw [List.map_map]
  rfl

/-- The reply-chain linker preserves the multiset of messages. -/
theorem mergeByReplyRelation_flatten_perm (extractQuoted : ChatMessage → Option String)
    (groups : List (List ChatMessage)) :
    ((mergeByReplyRelation extractQuoted groups).flatten).Perm groups.flatten := by
  unfold mergeByReplyRelation
  dsimp only
  split
  · exact List.Perm.refl _
  · rw [map_sort_snd]
    refine (flatten_map_sortByTs_perm _).trans ?_
    refine (collectBuckets_flatten_perm _ _ _ _).trans ?_
    simp [List.enum_map_snd]

/-- The greedy semantic merge loop preserves the multiset of messages, for
any similarity matrix, provided the fuel covers the list length. -/
theorem greedyMergeLoop_flatten_perm (sims : Nat → Nat → ℚ) (threshold : ℚ) :
    ∀ (fuel : Nat) (l : List (Nat × List ChatMessage)), l.length ≤ fuel →
      ((greedyMergeLoop sims threshold fuel l).flatten).Perm ((l.map Prod.snd).flatten) := by
  intro fuel
  induction fuel with
  | zero =>
      intro l hl
      rw [List.length_eq_zero.mp (Nat.le_zero.mp hl)]
      exact List.Perm.refl _
  | succ fuel ih =>
      intro l hl
      cases l with
      | nil => exact List.Perm.refl _
      | cons p rest =>
          obtain ⟨i, g⟩ := p
          unfold greedyMergeLoop
          simp only [List.flatten_cons]
          have hrem : (rest.filter
              (fun q => ! decide (threshold ≤ sims i q.1))).length ≤ fuel :=
            le_trans (List.length_filter_le _ _) (Nat.le_of_succ_le_succ (by simpa using hl))
          have hsplit : ((rest.filter (fun q => decide (threshold ≤ sims i q.1)) ++
              rest.filter (fun q => ! decide (threshold ≤ sims i q.1))).map Prod.snd).flatten.Perm
                ((rest.map Prod.snd).flatten) :=
            ((List.filter_append_perm _ rest).map Prod.snd).flatten
          refine List.Perm.trans ((sortByTs_perm _).append (ih _ hrem)) ?_
          simp only [List.map_cons, List.flatten_cons, List.append_assoc]
          refine List.Perm.append_left g ?_
          refine List.Perm.trans ?_ hsplit
          simp [List.flatten_append]

/-- The semantic merger preserves the multiset of messages. -/
theorem mergeBySemanticSimilarity_flatten_perm
    (vectorize : List String → Option (Nat → Nat → ℚ)) (cfg : Config)
    (groups : List (List ChatMessage)) :
    ((mergeBySemanticSimilarity vectorize cfg groups).flatten).Perm groups.flatten := by
  unfold mergeBySemanticSimilarity
  split
  · exact List.Perm.refl _
  · refine (greedyMergeLoop_flatten_perm _ _ _ _ (by simp)).trans ?_
    simp [List.enum_map_snd]

/-- C2.  Before the quality filter, the groups partition the input exactly:
the flattened group list is a permutation of the input messages, hence the
multiset of message ids is preserved; moreover the time-window grouper is an
exact partition and the reply and semantic stages each preserve the message
multiset, for every input. -/
theorem C2_partition_before_quality_filter
    (extractQuoted : ChatMessage → Option String)
    (vectorize : List String → Option (Nat → Nat → ℚ))
    (cfg : Config) (messages : List ChatMessage) :
    ((pipelineGroups extractQuoted vectorize cfg messages).flatten).Perm messages ∧
    (((pipelineGroups extractQuoted vectorize cfg messages).flatten.map
        (fun m => m.msg_id)).Perm (messages.map (fun m => m.msg_id))) ∧
    (∀ l : List ChatMessage, (groupByTimeWindow cfg l).flatten = l) ∧
    (∀ gs : List (List ChatMessage),
      ((mergeByReplyRelation extractQuoted gs).flatten).Perm gs.flatten) ∧
    (∀ gs : List (List ChatMessage),
      ((mergeBySemanticSimilarity vectorize cfg gs).flatten).Perm gs.flatten) := by
  have hmain : ((pipelineGroups extractQuoted vectorize cfg messages).flatten).Perm messages := by
    unfold pipelineGroups
    dsimp only
    have h1 : ((groupByTimeWindow cfg (sortByTs messages)).flatten).Perm messages := by
      rw [groupByTimeWindow_flatten]
      exact sortByTs_perm messages
    have h2 : (((if cfg.enable_reply_chain then
        mergeByReplyRelation extractQuoted (groupByTimeWindow cfg (sortByTs messages))
        else groupByTimeWindow cfg (sortByTs messages))).flatten).Perm messages := by
      split
      · exact (mergeByReplyRelation_flatten_perm _ _).trans h1
      · exact h1
    split
    · exact (mergeBySemanticSimilarity_flatten_perm _ _ _).trans h2
    · exact h2
  exact ⟨hmain, hmain.map _, groupByTimeWindow_flatten cfg,
    mergeByReplyRelation_flatten_perm extractQuoted,
    mergeBySemanticSimilarity_flatten_perm vectorize cfg⟩

/-! ## C8: graceful degradation of the semantic stage -/

/-- When fewer than two representative texts are valid, or the vectorization
backend fails, the similarity matrix is all zero. -/
theorem computeSemanticSimilarities_zero
    (vectorize : List String → Option (Nat → Nat → ℚ)) (texts : List String)
    (hfail : (validIndices texts).length < 2 ∨ vectorize (validTexts texts) = none) :
    computeSemanticSimilarities vectorize texts = fun _ _ => 0 := by
  rcases hfail with h | h
  · unfold computeSemanticSimilarities
    rw [if_pos h]
  · unfold computeSemanticSimilarities
    split
    · rfl
    · rw [h]

/-- Sorting a timestamp-sorted list leaves it unchanged. -/
theorem sortByTs_sorted_eq {l : List ChatMessage} (h : List.Sorted tsLE l) :
    sortByTs l = l :=
  List.Sorted.insertionSort_eq h

/-- With an all-zero similarity matrix and a positive threshold, the greedy
merge loop returns every (sorted) group unchanged. -/
theorem greedyMergeLoop_zero (threshold : ℚ) (hpos : 0 < threshold) :
    ∀ (fuel : Nat) (l : List (Nat × List ChatMessage)), l.length ≤ fuel →
      (∀ g ∈ l.map Prod.snd, List.Sorted tsLE g) →
      greedyMergeLoop (fun _ _ => 0) threshold fuel l = l.map Prod.snd := by
  have hd0 : decide (threshold ≤ (0 : ℚ)) = false := decide_eq_false (not_le.mpr hpos)
  intro fuel
  induction fuel with
  | zero =>
      intro l hl _
      rw [List.length_eq_zero.mp (Nat.le_zero.mp hl)]
      rfl
  | succ fuel ih =>
      intro l hl hsorted
      cases l with
      | nil => rfl
      | cons p rest =>
          obtain ⟨i, g⟩ := p
          unfold greedyMergeLoop
          dsimp only
          simp only [hd0, Bool.not_false, List.filter_false, List.filter_true, List.map_nil,
            List.flatten_nil, List.append_nil]
          rw [ih rest (Nat.le_of_succ_le_succ (by simpa using hl))
            (fun g hg => hsorted g (by simp [hg]))]
          rw [sortByTs_sorted_eq (hsorted g (by simp))]
          rfl

/-- C8.  When vectorization of the representative texts fails — fewer than
two texts are valid, or the backend raises — the similarity matrix is all
zero and the semantic merger returns the group list unchanged (every group
in the pipeline is sorted by timestamp at this point). -/
theorem C8_vectorization_failure_passthrough
    (vectorize : List String → Option (Nat → Nat → ℚ)) (cfg : Config)
    (groups : List (List ChatMessage))
    (hpos : 0 < cfg.semantic_threshold)
    (hsorted : ∀ g ∈ groups, List.Sorted tsLE g)
    (hfail : (validIndices (groups.map getGroupText)).length < 2 ∨
      vectorize (validTexts (groups.map getGroupText)) = none) :
    computeSemanticSimilarities vectorize (groups.map getGroupText) = (fun _ _ => 0) ∧
    mergeBySemanticSimilarity vectorize cfg groups = groups := by
  have hzero := computeSemanticSimilarities_zero vectorize (groups.map getGroupText) hfail
  refine ⟨hzero, ?_⟩
  unfold mergeBySemanticSimilarity
  dsimp only
  split
  · rfl
  · rw [hzero, greedyMergeLoop_zero cfg.semantic_threshold hpos groups.length groups.enum
      (by simp) (by simpa [List.enum_map_snd] using hsorted), List.enum_map_snd]

/-- Two empty-content messages for the C8 witness. -/
def msgBlankA : ChatMessage := mkMsg "ba" 0 "u1" ""

/-- Second empty-content message for the C8 witness. -/
def msgBlankB : ChatMessage := mkMsg "bb" 1000 "u2" ""

/-- A vectorization backend that always fails. -/
def vecNone : List String → Option (Nat → Nat → ℚ) := fun _ => none

/-- C8 witness: with two groups of empty representative text and a failing
backend, the matrix is zero and the groups pass through unchanged. -/
theorem C8_vectorization_failure_passthrough_witness :
    computeSemanticSimilarities vecNone ([[msgBlankA], [msgBlankB]].map getGroupText) =
      (fun _ _ => 0) ∧
    mergeBySemanticSimilarity vecNone cfgThr1 [[msgBlankA], [msgBlankB]] =
      [[msgBlankA], [msgBlankB]] :=
  C8_vectorization_failure_passthrough vecNone cfgThr1 [[msgBlankA], [msgBlankB]]
    (by decide)
    (by
      intro g hg
      simp only [List.mem_cons, List.mem_singleton, List.not_mem_nil, or_false] at hg
      rcases hg with h | h <;> subst h <;> exact List.sorted_singleton _)
    (Or.inl (by decide))

/-! ## C9: idempotence of the reply-chain linker

The data-model invariant (spec section 3) is that message ids are unique
across the input of one run; under it every reply relation the code records
is intra-group (both ids sit in the same group), every union is trivial, and
the linker reduces to sorting each group. -/

/-- Unique message ids across all groups: the documented input invariant. -/
def NodupIds (groups : List (List ChatMessage)) : Prop :=
  ((groups.flatten).map (fun m => m.msg_id)).Nodup

instance (groups : List (List ChatMessage)) : Decidable (NodupIds groups) := by
  unfold NodupIds; infer_instance

/-- When `s` matches no id of `ms`, the inner dict fold leaves its value
unchanged. -/
theorem innerFold_skip (idx : Nat) :
    ∀ (ms : List ChatMessage) (a : String → Option Nat) (s : String),
      s ∉ ms.map (fun m => m.msg_id) →
      (ms.foldl (fun a m => fun t => if t = m.msg_id then some idx else a t) a) s = a s := by
  intro ms
  induction ms with
  | nil => intro a s _; rfl
  | cons m ms ih =>
      intro a s hs
      simp only [List.map_cons, List.mem_cons, not_or] at hs
      rw [List.foldl_cons, ih _ s hs.2]
      simp [hs.1]

/-- When `s` is an id of `ms`, the inner dict fold maps it to `idx`. -/
theorem innerFold_mem (idx : Nat) :
    ∀ (ms : List ChatMessage) (a : String → Option Nat) (s : String),
      s ∈ ms.map (fun m => m.msg_id) →
      (ms.foldl (fun a m => fun t => if t = m.msg_id then some idx else a t) a) s = some idx := by
  intro ms
  induction ms with
  | nil => intro a s hs; cases hs
  | cons m ms ih =>
      intro a s hs
      by_cases hrest : s ∈ ms.map (fun m => m.msg_id)
      · rw [List.foldl_cons, ih _ s hrest]
      · simp only [List.map_cons, List.mem_cons] at hs
        rcases hs with h | h
        · rw [List.foldl_cons, innerFold_skip idx ms _ s hrest]
          simp [h]
        · exact absurd h hrest

/-- Whatever the inner dict fold returns comes from the base map or is
`idx` for an id of `ms`. -/
theorem innerFold_valid (idx : Nat) (ms : List ChatMessage) (a : String → Option Nat)
    (s : String) (j : Nat)
    (h : (ms.foldl (fun a m => fun t => if t = m.msg_id then some idx else a t) a) s = some j) :
    a s = some j ∨ (j = idx ∧ s ∈ ms.map (fun m => m.msg_id)) := by
  by_cases hs : s ∈ ms.map (fun m => m.msg_id)
  · rw [innerFold_mem idx ms a s hs] at h
    exact Or.inr ⟨(Option.some_inj.mp h).symm, hs⟩
  · rw [innerFold_skip idx ms a s hs] at h
    exact Or.inl h

/-- Results of the outer dict fold come from the base or from one of the
folded (index, group) pairs. -/
theorem outerFold_valid :
    ∀ (l : List (Nat × List ChatMessage)) (base : String → Option Nat) (s : String) (j : Nat),
      (l.foldl (fun acc p => p.2.foldl
        (fun a m => fun t => if t = m.msg_id then some p.1 else a t) acc) base) s = some j →
      base s = some j ∨ ∃ p ∈ l, j = p.1 ∧ s ∈ p.2.map (fun m => m.msg_id) := by
  intro l
  induction l with
  | nil => intro base s j h; exact Or.inl h
  | cons p l ih =>
      intro base s j h
      rw [List.foldl_cons] at h
      rcases ih _ s j h with hbase | ⟨p2, hp2, hj⟩
      · rcases innerFold_valid p.1 p.2 base s j hbase with h2 | h2
        · exact Or.inl h2
        · exact Or.inr ⟨p, List.mem_cons_self p l, h2⟩
      · exact Or.inr ⟨p2, List.mem_cons_of_mem p hp2, hj⟩

/-- The outer dict fold keeps every key that is already bound. -/
theorem outerFold_some_mono :
    ∀ (l : List (Nat × List ChatMessage)) (base : String → Option Nat) (s : String) (j : Nat),
      base s = some j →
      ∃ j2, (l.foldl (fun acc p => p.2.foldl
        (fun a m => fun t => if t = m.msg_id then some p.1 else a t) acc) base) s = some j2 := by
  intro l
  induction l with
  | nil => intro base s j h; exact ⟨j, h⟩
  | cons p l ih =>
      intro base s j h
      rw [List.foldl_cons]
      by_cases hs : s ∈ p.2.map (fun m => m.msg_id)
      · exact ih _ s p.1 (innerFold_mem p.1 p.2 base s hs)
      · exact ih _ s j ((innerFold_skip p.1 p.2 base s hs).trans h)

/-- Every id occurring in one of the folded groups is bound by the outer
dict fold. -/
theorem outerFold_cover :
    ∀ (l : List (Nat × List ChatMessage)) (base : String → Option Nat) (s : String),
      (∃ p ∈ l, s ∈ p.2.map (fun m => m.msg_id)) →
      ∃ j, (l.foldl (fun acc p => p.2.foldl
        (fun a m => fun t => if t = m.msg_id then some p.1 else a t) acc) base) s = some j := by
  intro l
  induction l with
  | nil => intro base s h; obtain ⟨p, hp, _⟩ := h; cases hp
  | cons p l ih =>
      intro base s h
      rw [List.foldl_cons]
      obtain ⟨p0, hp0, hs0⟩ := h
      rcases List.mem_cons.mp hp0 with heq | hmem
      · subst heq
        exact outerFold_some_mono l _ s p0.1 (innerFold_mem p0.1 p0.2 base s hs0)
      · exact ih _ s ⟨p0, hmem, hs0⟩

/-- Under unique ids, an id determines its group index: two enumerated
groups sharing a message id coincide. -/
theorem enum_group_unique (groups : List (List ChatMessage)) (hnd : NodupIds groups)
    {j k : Nat} {gj gk : List ChatMessage}
    (hj : (j, gj) ∈ groups.enum) (hk : (k, gk) ∈ groups.enum) (s : String)
    (hsj : s ∈ gj.map (fun m => m.msg_id)) (hsk : s ∈ gk.map (fun m => m.msg_id)) :
    j = k := by
  have hdisj : List.Pairwise List.Disjoint
      (groups.map (fun g => g.map (fun m => m.msg_id))) := by
    have h1 : ((groups.map (fun g => g.map (fun m => m.msg_id))).flatten).Nodup := by
      rw [← List.map_flatten]
      exact hnd
    exact (List.nodup_flatten.mp h1).2
  rw [List.mem_enum_iff_getElem?] at hj hk
  have hjlen : j < groups.length := (List.getElem?_eq_some.mp hj).1
  have hklen : k < groups.length := (List.getElem?_eq_some.mp hk).1
  have hgj : groups[j] = gj := (List.getElem?_eq_some.mp hj).2
  have hgk : groups[k] = gk := (List.getElem?_eq_some.mp hk).2
  by_contra hne
  have key : ∀ {a b : Nat} {ga gb : List ChatMessage}, a < b →
      (ha : a < groups.length) → (hb : b < groups.length) →
      groups[a] = ga → groups[b] = gb →
      s ∈ ga.map (fun m => m.msg_id) → s ∈ gb.map (fun m => m.msg_id) → False := by
    intro a b ga gb hab ha hb hga hgb hsa hsb
    have hd := List.pairwise_iff_get.mp hdisj
      ⟨a, by simpa using ha⟩ ⟨b, by simpa using hb⟩ (by simpa using hab)
    rw [List.get_map, List.get_map] at hd
    simp only [List.get_eq_getElem] at hd
    rw [hga, hgb] at hd
    exact hd hsa hsb
  rcases Nat.lt_or_ge j k with hlt | hge
  · exact key hlt hjlen hklen hgj hgk hsj hsk
  · exact key (Nat.lt_of_le_of_ne hge (fun h => hne h.symm)) hklen hjlen hgk hgj hsk hsj

/-- Under unique ids the id-to-group map sends every id of an enumerated
group to that group's index. -/
theorem msgToGroup_eq_of_mem (groups : List (List ChatMessage)) (hnd : NodupIds groups)
    {k : Nat} {g : List ChatMessage} (hk : (k, g) ∈ groups.enum)
    {s : String} (hs : s ∈ g.map (fun m => m.msg_id)) :
    msgToGroup groups s = some k := by
  obtain ⟨j, hj⟩ := outerFold_cover groups.enum (fun _ => none) s ⟨(k, g), hk, hs⟩
  rcases outerFold_valid groups.enum (fun _ => none) s j hj with hbase | ⟨p, hp, hjp, hsp⟩
  · cases hbase
  · have : p.1 = k := enum_group_unique groups hnd (by simpa using hp) hk s hsp hs
    rw [msgToGroup]
    rw [hj, hjp, this]

/-- Both ids of every recorded relation belong to one and the same group:
the per-group `msg_map` check of `_extract_reply_relations` admits no
cross-group relation. -/
theorem relations_mem (extractQuoted : ChatMessage → Option String)
    (groups : List (List ChatMessage)) {r q : String}
    (h : (r, q) ∈ extractReplyRelations extractQuoted groups) :
    ∃ g ∈ groups, r ∈ g.map (fun m => m.msg_id) ∧ q ∈ g.map (fun m => m.msg_id) := by
  unfold extractReplyRelations at h
  rw [List.mem_flatten] at h
  obtain ⟨l, hl, hrq⟩ := h
  rw [List.mem_map] at hl
  obtain ⟨g, hg, rfl⟩ := hl
  refine ⟨g, hg, ?_⟩
  unfold groupRelations at hrq
  rw [List.mem_filterMap] at hrq
  obtain ⟨m, hm, hfm⟩ := hrq
  cases he : extractQuoted m with
  | none => rw [he] at hfm; cases hfm
  | some q0 =>
      rw [he] at hfm
      dsimp only at hfm
      by_cases hc : q0 ≠ "" ∧ q0 ∈ g.map (fun m2 => m2.msg_id)
      · rw [if_pos hc] at hfm
        obtain ⟨h1, h2⟩ := Prod.mk.injEq .. ▸ Option.some_inj.mp hfm
        subst h1; subst h2
        exact ⟨List.mem_map_of_mem _ hm, hc.2⟩
      · rw [if_neg hc] at hfm
        cases hfm

/-- `Array.getD` on the identity array is the identity. -/
theorem getD_range (n x : Nat) : (Array.range n).getD x x = x := by
  unfold Array.getD
  split
  · exact Array.getElem_range _
  · rfl

/-- `find` on the identity parent array finds every index at its place and
performs no compression. -/
theorem ufFind_range (fuel n x : Nat) :
    ufFind fuel (Array.range n) x = (Array.range n, x) := by
  cases fuel with
  | zero => rfl
  | succ fuel =>
      unfold ufFind
      dsimp only
      rw [getD_range]
      simp

/-- `union` of an index with itself on the identity parent array is the
identity parent array. -/
theorem ufUnion_range_self (fuel n x : Nat) :
    ufUnion fuel (Array.range n) x x = Array.range n := by
  simp [ufUnion, ufFind_range]

/-- Under unique ids, folding all recorded relations through `union` leaves
the parent array the identity: every relation unions a group index with
itself. -/
theorem foldParent_range (extractQuoted : ChatMessage → Option String)
    (groups : List (List ChatMessage)) (hnd : NodupIds groups) :
    (extractReplyRelations extractQuoted groups).foldl
      (fun p rq => match msgToGroup groups rq.1, msgToGroup groups rq.2 with
        | some ri, some qi => ufUnion groups.length p ri qi
        | _, _ => p) (Array.range groups.length) = Array.range groups.length := by
  have hsame : ∀ rq ∈ extractReplyRelations extractQuoted groups,
      ∃ k, msgToGroup groups rq.1 = some k ∧ msgToGroup groups rq.2 = some k := by
    intro rq hrq
    obtain ⟨r, q⟩ := rq
    obtain ⟨g, hg, hr, hq⟩ := relations_mem extractQuoted groups hrq
    obtain ⟨⟨k, hklen⟩, hgk⟩ := List.mem_iff_get.mp hg
    have hkg : (k, g) ∈ groups.enum := by
      rw [List.mem_enum_iff_getElem?]
      simpa [List.getElem?_eq_some, hklen] using (by simpa using hgk.symm : g = groups[k]).symm
    exact ⟨k, msgToGroup_eq_of_mem groups hnd hkg hr, msgToGroup_eq_of_mem groups hnd hkg hq⟩
  revert hsame
  generalize extractReplyRelations extractQuoted groups = rels
  intro hsame
  induction rels with
  | nil => rfl
  | cons rq rels ih =>
      obtain ⟨k, h1, h2⟩ := hsame rq (List.mem_cons_self rq rels)
      rw [List.foldl_cons, h1, h2]
      dsimp only
      rw [ufUnion_range_self]
      exact ih (fun p hp => hsame p (List.mem_cons_of_mem rq hp))

/-- Appending to a bucket list under a fresh root appends a new entry. -/
theorem addToBucket_fresh (root : Nat) (g : List ChatMessage) :
    ∀ buckets : List (Nat × List ChatMessage),
      (∀ b ∈ buckets, b.1 ≠ root) →
      addToBucket buckets root g = buckets ++ [(root, g)] := by
  intro buckets
  induction buckets with
  | nil => intro _; rfl
  | cons b rest ih =>
      intro hfresh
      obtain ⟨r, ms⟩ := b
      unfold addToBucket
      rw [if_neg (hfresh (r, ms) (List.mem_cons_self _ _))]
      rw [ih (fun b hb => hfresh b (List.mem_cons_of_mem _ hb))]
      rfl

/-- Collecting along the identity parent array with pairwise-distinct fresh
indices reproduces the enumerated list. -/
theorem collectBuckets_range_id (n : Nat) :
    ∀ (l : List (Nat × List ChatMessage)) (acc : List (Nat × List ChatMessage)),
      (l.map Prod.fst).Nodup →
      (∀ b ∈ acc, ∀ p ∈ l, b.1 ≠ p.1) →
      collectBuckets n acc (Array.range n) l = (acc ++ l, Array.range n) := by
  intro l
  induction l with
  | nil => intro acc _ _; simp [collectBuckets]
  | cons p rest ih =>
      intro acc hnd hfresh
      obtain ⟨idx, g⟩ := p
      unfold collectBuckets
      rw [ufFind_range]
      dsimp only
      rw [addToBucket_fresh idx g acc
        (fun b hb => hfresh b hb (idx, g) (List.mem_cons_self _ _))]
      rw [ih (acc ++ [(idx, g)])
        (by simpa using (List.nodup_cons.mp (by simpa using hnd)).2)
        ?_]
      · simp
      · intro b hb p2 hp2
        rcases List.mem_append.mp hb with h | h
        · exact hfresh b h p2 (List.mem_cons_of_mem _ hp2)
        · rw [List.mem_singleton.mp h]
          intro hcontra
          have hidx : idx = p2.1 := hcontra
          have : idx ∈ rest.map Prod.fst := by
            rw [hidx]
            exact List.mem_map_of_mem _ hp2
          exact (List.nodup_cons.mp (by simpa using hnd)).1 this

/-- Under unique ids the reply-chain linker reduces to re-sorting each
group (or passing the list through untouched when no relation exists): no
two distinct groups are ever merged. -/
theorem mergeByReplyRelation_nodup (extractQuoted : ChatMessage → Option String)
    (groups : List (List ChatMessage)) (hnd : NodupIds groups) :
    mergeByReplyRelation extractQuoted groups =
      if extractReplyRelations extractQuoted groups = [] then groups
      else groups.map sortByTs := by
  unfold mergeByReplyRelation
  dsimp only
  by_cases hrel : extractReplyRelations extractQuoted groups = []
  · rw [if_pos hrel, if_pos hrel]
  · rw [if_neg hrel, if_neg hrel]
    rw [foldParent_range extractQuoted groups hnd]
    rw [collectBuckets_range_id groups.length groups.enum []
      (by simpa using List.nodup_enum_map_fst groups) (by intro b hb; cases hb)]
    rw [List.nil_append, map_sort_snd, List.enum_map_snd]

/-- The relations of one group survive re-sorting the group: the membership
check only consults the set of ids. -/
theorem groupRelations_sort_perm (extractQuoted : ChatMessage → Option String)
    (g : List ChatMessage) :
    (groupRelations extractQuoted (sortByTs g)).Perm (groupRelations extractQuoted g) := by
  unfold groupRelations
  have hfun : ∀ m ∈ sortByTs g,
      (match extractQuoted m with
        | some q => if q ≠ "" ∧ q ∈ (sortByTs g).map (fun m2 : ChatMessage => m2.msg_id) then
            some (m.msg_id, q) else none
        | none => none) =
      (match extractQuoted m with
        | some q => if q ≠ "" ∧ q ∈ g.map (fun m2 : ChatMessage => m2.msg_id) then
            some (m.msg_id, q) else none
        | none => none) := by
    intro m _
    cases extractQuoted m with
    | none => rfl
    | some q =>
        exact if_congr (and_congr_right (fun _ => ((sortByTs_perm g).map _).mem_iff)) rfl rfl
  rw [List.filterMap_congr hfun]
  exact List.Perm.filterMap _ (sortByTs_perm g)

/-- Re-sorting every group does not change whether any relation exists. -/
theorem relations_map_sort_nil_iff (extractQuoted : ChatMessage → Option String)
    (groups : List (List ChatMessage)) :
    (extractReplyRelations extractQuoted (groups.map sortByTs) = []) ↔
      (extractReplyRelations extractQuoted groups = []) := by
  unfold extractReplyRelations
  rw [List.map_map, List.flatten_eq_nil_iff, List.flatten_eq_nil_iff]
  constructor
  · intro h g hg
    rw [List.mem_map] at hg
    obtain ⟨g0, hg0, rfl⟩ := hg
    have h1 := h (groupRelations extractQuoted (sortByTs g0))
      (by exact List.mem_map_of_mem _ hg0)
    have h2 := (groupRelations_sort_perm extractQuoted g0).symm
    rw [h1] at h2
    exact h2.eq_nil
  · intro h l hl
    rw [List.mem_map] at hl
    obtain ⟨g0, hg0, rfl⟩ := hl
    have h1 := h (groupRelations extractQuoted g0) (List.mem_map_of_mem _ hg0)
    have h2 := groupRelations_sort_perm extractQuoted g0
    rw [h1] at h2
    exact h2.eq_nil

/-- Sorting every group is idempotent. -/
theorem map_sortByTs_idem (groups : List (List ChatMessage)) :
    (groups.map sortByTs).map sortByTs = groups.map sortByTs := by
  rw [List.map_map]
  have : sortByTs ∘ sortByTs = sortByTs :=
    funext (fun l => sortByTs_sorted_eq (List.sorted_insertionSort tsLE l))
  rw [this]

/-- Unique ids survive re-sorting every group. -/
theorem NodupIds_map_sortByTs {groups : List (List ChatMessage)} (h : NodupIds groups) :
    NodupIds (groups.map sortByTs) := by
  unfold NodupIds at h ⊢
  exact ((flatten_map_sortByTs_perm groups).map _).nodup_iff.mpr h

/-- C9.  Under the documented input invariant (message ids unique across the
run), the reply-chain linker is idempotent: applying it to its own output
changes nothing. -/
theorem C9_reply_linker_idempotent (extractQuoted : ChatMessage → Option String)
    (groups : List (List ChatMessage)) (hnd : NodupIds groups) :
    mergeByReplyRelation extractQuoted (mergeByReplyRelation extractQuoted groups) =
      mergeByReplyRelation extractQuoted groups := by
  by_cases hrel : extractReplyRelations extractQuoted groups = []
  · have h1 : mergeByReplyRelation extractQuoted groups = groups := by
      rw [mergeByReplyRelation_nodup extractQuoted groups hnd, if_pos hrel]
    rw [h1]
    exact h1
  · have h1 : mergeByReplyRelation extractQuoted groups = groups.map sortByTs := by
      rw [mergeByReplyRelation_nodup extractQuoted groups hnd, if_neg hrel]
    rw [h1]
    have hrel2 : extractReplyRelations extractQuoted (groups.map sortByTs) ≠ [] :=
      fun hc => hrel ((relations_map_sort_nil_iff extractQuoted groups).mp hc)
    rw [mergeByReplyRelation_nodup extractQuoted _ (NodupIds_map_sortByTs hnd),
      if_neg hrel2, map_sortByTs_idem]

/-- C9 witness: the linker applied twice to the Scenario C groups equals one
application. -/
theorem C9_reply_linker_idempotent_witness :
    mergeByReplyRelation extractQuotedScenC
        (mergeByReplyRelation extractQuotedScenC [[msgA], [msgD]]) =
      mergeByReplyRelation extractQuotedScenC [[msgA], [msgD]] :=
  C9_reply_linker_idempotent extractQuotedScenC [[msgA], [msgD]] (by decide)

/-! ## C10: internal consistency of the assembled Topic record -/

/-- The default of `getLastD` is irrelevant on a non-empty list, and the
result is a member. -/
theorem getLastD_mem_cons :
    ∀ (l : List ChatMessage) (a d : ChatMessage), (a :: l).getLastD d ∈ a :: l := by
  intro l
  induction l with
  | nil => intro a d; simp [List.getLastD]
  | cons b t ih =>
      intro a d
      rw [List.getLastD_cons]
      exact List.mem_cons_of_mem a (by simpa using ih b a)

/-- In a timestamp-sorted list every message is at or before the last
one. -/
theorem sorted_rel_getLastD :
    ∀ (l : List ChatMessage), List.Sorted tsLE l →
      ∀ m ∈ l, ∀ d : ChatMessage, tsLE m (l.getLastD d) := by
  intro l
  induction l with
  | nil => intro _ m hm; cases hm
  | cons a t ih =>
      intro hsort m hm d
      cases t with
      | nil =>
          rw [List.mem_singleton.mp hm]
          exact le_refl _
      | cons b t2 =>
          rw [List.getLastD_cons]
          rcases List.mem_cons.mp hm with rfl | hmem
          · exact le_trans (List.rel_of_sorted_cons hsort b (List.mem_cons_self b t2))
              (ih hsort.tail b (List.mem_cons_self b t2) m)
          · exact ih hsort.tail m hmem a

/-- C10.  Every Topic assembled from a (timestamp-sorted, as in the
pipeline) group is internally consistent: the message count equals the
lengths of the id list and of the snapshot list; the participants are
exactly the distinct sender names; the start and end times are the minimum
and maximum timestamps, with start at or before end. -/
theorem C10_topic_record_consistent (digest : String → String)
    (extractLink : Option String → Option LinkInfo)
    (msgs : List ChatMessage) (t : Topic)
    (hsorted : List.Sorted tsLE msgs)
    (hcreate : createTopicFromGroup digest extractLink msgs = some t) :
    t.message_count = t.message_ids.length ∧
    t.message_count = t.messages.length ∧
    t.participants.Nodup ∧
    (∀ s : String, s ∈ t.participants ↔ ∃ m ∈ msgs, m.sender_name = s) ∧
    ∃ st et : Int, t.start_time = some st ∧ t.end_time = some et ∧ st ≤ et ∧
      (∀ m ∈ msgs, st ≤ m.timestamp ∧ m.timestamp ≤ et) ∧
      (∃ m ∈ msgs, m.timestamp = st) ∧ (∃ m ∈ msgs, m.timestamp = et) := by
  cases msgs with
  | nil => cases hcreate
  | cons first rest =>
      have ht := (Option.some_inj.mp hcreate).symm
      subst ht
      refine ⟨by simp, by simp, List.nodup_dedup _, ?_, ?_⟩
      · intro s
        constructor
        · intro hs
          rw [List.mem_dedup, List.mem_map] at hs
          obtain ⟨m, hm, hms⟩ := hs
          exact ⟨m, hm, hms⟩
        · intro ⟨m, hm, hms⟩
          rw [List.mem_dedup, List.mem_map]
          exact ⟨m, hm, hms⟩
      · refine ⟨first.timestamp, ((first :: rest).getLastD first).timestamp, rfl, rfl, ?_, ?_, ?_, ?_⟩
        · exact sorted_rel_getLastD (first :: rest) hsorted first
            (List.mem_cons_self first rest) first
        · intro m hm
          constructor
          · rcases List.mem_cons.mp hm with rfl | hmem
            · exact le_refl _
            · exact List.rel_of_sorted_cons hsorted m hmem
          · exact sorted_rel_getLastD (first :: rest) hsorted m hm first
        · exact ⟨first, List.mem_cons_self first rest, rfl⟩
        · exact ⟨(first :: rest).getLastD first, getLastD_mem_cons rest first first, rfl⟩

/-- Witness digest backend: a constant short hex string. -/
def digestW : String → String := fun _ => "abcdef"

/-- Witness link extractor: never finds a link. -/
def linkW : Option String → Option LinkInfo := fun _ => none

/-- First witness message for the Topic-assembly claims. -/
def msgW1 : ChatMessage := mkMsg "w1" 0 "Ann" "hello"

/-- Second witness message for the Topic-assembly claims. -/
def msgW2 : ChatMessage := mkMsg "w2" 5 "Ben" "world"

/-- The Topic assembled from the two witness messages. -/
def topicW : Topic :=
  { topic_id := "abcdef"
    message_ids := ["w1", "w2"]
    title := "hello"
    participants := ["Ann", "Ben"]
    initiator := some "Ann"
    start_time := some 0
    end_time := some 5
    conclusion := some "hello | world"
    message_count := 2
    messages :=
      [{ msg_id := "w1", sender_name := "Ann", content := "hello", timestamp := 0
         msg_type := "1", link := none },
       { msg_id := "w2", sender_name := "Ben", content := "world", timestamp := 5
         msg_type := "1", link := none }] }

/-- C10 witness: the consistency facts hold of the concrete assembled
topic. -/
theorem C10_topic_record_consistent_witness :
    topicW.message_count = topicW.message_ids.length ∧
    topicW.message_count = topicW.messages.length ∧
    topicW.participants.Nodup ∧
    (∀ s : String, s ∈ topicW.participants ↔ ∃ m ∈ [msgW1, msgW2], m.sender_name = s) ∧
    ∃ st et : Int, topicW.start_time = some st ∧ topicW.end_time = some et ∧ st ≤ et ∧
      (∀ m ∈ [msgW1, msgW2], st ≤ m.timestamp ∧ m.timestamp ≤ et) ∧
      (∃ m ∈ [msgW1, msgW2], m.timestamp = st) ∧ (∃ m ∈ [msgW1, msgW2], m.timestamp = et) :=
  C10_topic_record_consistent digestW linkW [msgW1, msgW2] topicW (by decide) (by decide)

/-! ## C6: determinism of the full pipeline and the shape of topic ids -/

/-- C6.  The pipeline is a pure function of its input: two runs on equal
inputs produce equal topic lists (hence equal ids, titles and member
lists), and every produced topic id is the 12-character truncation of the
digest of `timestamp_senderid_msgid` of the first message of its group. -/
theorem C6_deterministic_run (digest : String → String)
    (extractQuoted : ChatMessage → Option String)
    (extractLink : Option String → Option LinkInfo)
    (vectorize : List String → Option (Nat → Nat → ℚ))
    (cfg : Config) (msgs1 msgs2 : List ChatMessage) (h : msgs1 = msgs2) :
    runPipeline digest extractQuoted extractLink vectorize cfg msgs1 =
      runPipeline digest extractQuoted extractLink vectorize cfg msgs2 ∧
    (runPipeline digest extractQuoted extractLink vectorize cfg msgs1).map Topic.topic_id =
      (runPipeline digest extractQuoted extractLink vectorize cfg msgs2).map Topic.topic_id ∧
    (runPipeline digest extractQuoted extractLink vectorize cfg msgs1).map Topic.title =
      (runPipeline digest extractQuoted extractLink vectorize cfg msgs2).map Topic.title ∧
    (runPipeline digest extractQuoted extractLink vectorize cfg msgs1).map Topic.message_ids =
      (runPipeline digest extractQuoted extractLink vectorize cfg msgs2).map Topic.message_ids ∧
    ∀ t ∈ runPipeline digest extractQuoted extractLink vectorize cfg msgs1,
      ∃ g ∈ qualityFilter cfg (pipelineGroups extractQuoted vectorize cfg msgs1),
        ∃ m : ChatMessage, g.head? = some m ∧
          t.topic_id =
            takeChars 12 (digest (toString m.timestamp ++ "_" ++ m.sender_id ++ "_" ++ m.msg_id)) := by
  subst h
  refine ⟨rfl, rfl, rfl, rfl, ?_⟩
  intro t ht
  unfold runPipeline at ht
  split at ht
  · cases ht
  · rw [List.mem_filterMap] at ht
    obtain ⟨g, hg, hcreate⟩ := ht
    refine ⟨g, hg, ?_⟩
    cases g with
    | nil => cases hcreate
    | cons first rest =>
        have ht2 := (Option.some_inj.mp hcreate).symm
        subst ht2
        exact ⟨first, rfl, rfl⟩

/-- C6 witness: the determinism conjunction at a concrete input with two
syntactically equal message lists. -/
theorem C6_deterministic_run_witness :
    runPipeline digestW extractQuotedScenC linkW vecNone cfgDefault [msgA, msgD] =
      runPipeline digestW extractQuotedScenC linkW vecNone cfgDefault [msgA, msgD] ∧
    (runPipeline digestW extractQuotedScenC linkW vecNone cfgDefault [msgA, msgD]).map
        Topic.topic_id =
      (runPipeline digestW extractQuotedScenC linkW vecNone cfgDefault [msgA, msgD]).map
        Topic.topic_id ∧
    (runPipeline digestW extractQuotedScenC linkW vecNone cfgDefault [msgA, msgD]).map
        Topic.title =
      (runPipeline digestW extractQuotedScenC linkW vecNone cfgDefault [msgA, msgD]).map
        Topic.title ∧
    (runPipeline digestW extractQuotedScenC linkW vecNone cfgDefault [msgA, msgD]).map
        Topic.message_ids =
      (runPipeline digestW extractQuotedScenC linkW vecNone cfgDefault [msgA, msgD]).map
        Topic.message_ids ∧
    ∀ t ∈ runPipeline digestW extractQuotedScenC linkW vecNone cfgDefault [msgA, msgD],
      ∃ g ∈ qualityFilter cfgDefault (pipelineGroups extractQuotedScenC vecNone cfgDefault
          [msgA, msgD]),
        ∃ m : ChatMessage, g.head? = some m ∧
          t.topic_id = takeChars 12 (digestW
            (toString m.timestamp ++ "_" ++ m.sender_id ++ "_" ++ m.msg_id)) :=
  C6_deterministic_run digestW extractQuotedScenC linkW vecNone cfgDefault
    [msgA, msgD] [msgA, msgD] rfl

end VX
